import Mathlib

/-!
Shallow embedding of the Mock OMR Sheet application logic (script.js).

The answer key is a JavaScript object mapping question numbers to answer
strings; we model it as an association list with replace-on-assign
semantics (`setKey` mirrors `obj[k] = v`, `getKey` mirrors `obj[k]`,
`List.length` mirrors `Object.keys(obj).length` for lists built by
`setKey` from the empty key).  Marking scheme values (parsed by
`parseFloat` in the source) are modelled as rationals.  Question numbers
produced by `parseInt` are modelled as integers.
-/

namespace OMR

/-- An answer key: JS object from question number to answer string. -/
abbrev AnswerKey := List (Int × String)

/-- JS object assignment `key[k] = v`: replace the binding if the key is
present, otherwise append it. -/
def setKey : AnswerKey → Int → String → AnswerKey
  | [], k, v => [(k, v)]
  | p :: t, k, v => if p.1 = k then (k, v) :: t else p :: setKey t k v

/-- JS object lookup `key[k]`: `none` models `undefined`. -/
def getKey (m : AnswerKey) (k : Int) : Option String :=
  (m.find? (fun p => p.1 == k)).map Prod.snd

/-- Build a key from a list of (question, answer) assignments performed in
order, starting from the empty object; mirrors the assignment loops in
`parseAnswerKeyFromExcel` and `parseAnswerKeyFromText`. -/
def buildKey (ps : List (Int × String)) : AnswerKey :=
  ps.foldl (fun k p => setKey k p.1 p.2) []

/-- Whitespace characters for the JS `\s` class and `parseInt` leading-space
skipping (ASCII subset, which covers all inputs of interest). -/
def jsSpace (c : Char) : Bool :=
  c = ' ' || c = '\t' || c = '\n' || c = '\r' || c = '\x0b' || c = '\x0c'

/-- JS `String.prototype.trim()`: drop leading and trailing whitespace
(structural model, since this must evaluate inside the kernel). -/
def jsTrim (s : String) : String :=
  String.mk (((s.data.dropWhile jsSpace).reverse.dropWhile jsSpace).reverse)

/-- JS `String.prototype.toUpperCase()` (ASCII, which covers the answer
letters and manual key strings of interest). -/
def jsToUpper (s : String) : String :=
  String.mk (s.data.map Char.toUpper)

/-- Word characters for the JS `\b` boundary: `[A-Za-z0-9_]`. -/
def jsWordChar (c : Char) : Bool :=
  c.isAlphanum || c = '_'

/-- Numeric value of a decimal digit string. -/
def digitsToNat (ds : List Char) : Nat :=
  ds.foldl (fun n c => 10 * n + (c.toNat - '0'.toNat)) 0

/-- JS `parseInt(s, 10)`: skip leading whitespace, optional sign, then the
longest leading run of decimal digits; `none` models `NaN` (no digits). -/
def jsParseInt (s : String) : Option Int :=
  let cs := s.data.dropWhile jsSpace
  let signAndRest : Int × List Char :=
    match cs with
    | '-' :: t => (-1, t)
    | '+' :: t => (1, t)
    | _ => (1, cs)
  let ds := signAndRest.2.takeWhile Char.isDigit
  if ds.isEmpty then none
  else some (signAndRest.1 * Int.ofNat (digitsToNat ds))

/-! ## Grading (`gradeSheet`, lines 176–228) -/

/-- The three counters accumulated by the grading loop. -/
structure Counts where
  correct : Nat
  incorrect : Nat
  unanswered : Nat
deriving DecidableEq

/-- One iteration of the grading loop body for question `i`: the selected
option (or `none`), compared with `answerKey[i]` (a missing entry is
`undefined` and never equals a selected value). -/
def gradeStep (sel : Nat → Option String) (key : AnswerKey) (c : Counts) (i : Nat) : Counts :=
  match sel i with
  | none => { c with unanswered := c.unanswered + 1 }
  | some v =>
      if getKey key (i : Int) = some v then { c with correct := c.correct + 1 }
      else { c with incorrect := c.incorrect + 1 }

/-- The grading loop `for (i = 1; i <= totalQuestions; i++)`. -/
def gradeCounts (totalQuestions : Nat) (sel : Nat → Option String) (key : AnswerKey) : Counts :=
  (List.range' 1 totalQuestions).foldl (gradeStep sel key) ⟨0, 0, 0⟩

/-- The outcome assigned to a single question by the branch structure of the
grading loop. -/
inductive Outcome where
  | correct
  | incorrect
  | unanswered
deriving DecidableEq

/-- Outcome of question `i` under selections `sel` and key `key`, following
exactly the branches of the loop body of `gradeSheet`. -/
def questionOutcome (sel : Nat → Option String) (key : AnswerKey) (i : Nat) : Outcome :=
  match sel i with
  | none => .unanswered
  | some v => if getKey key (i : Int) = some v then .correct else .incorrect

/-- Normalization of the wrong-marks input in `generateOMRSheet`
(`if (wrongMarks !== null && wrongMarks > 0) wrongMarks = -wrongMarks`). -/
def normalizeWrongMarks (wm : Option Rat) : Option Rat :=
  match wm with
  | some w => if w > 0 then some (-w) else some w
  | none => none

/-- The full result displayed by `gradeSheet`: the three counts, and the
weighted score and maximum (present exactly when `correctMarks` is set). -/
structure GradeResult where
  correct : Nat
  incorrect : Nat
  unanswered : Nat
  totalScore : Option Rat
  maxScore : Option Rat
deriving DecidableEq

/-- `gradeSheet`'s computation: count outcomes, then, when `correctMarks`
is set, `totalScore = correct*correctMarks + incorrect*(wrongMarks || 0)`
and `maxScore = totalQuestions * correctMarks`. -/
def gradeFull (totalQuestions : Nat) (sel : Nat → Option String) (key : AnswerKey)
    (cm wm : Option Rat) : GradeResult :=
  let c := gradeCounts totalQuestions sel key
  match cm with
  | some m =>
      { correct := c.correct, incorrect := c.incorrect, unanswered := c.unanswered,
        totalScore := some (c.correct * m + c.incorrect * (wm.getD 0)),
        maxScore := some (totalQuestions * m) }
  | none =>
      { correct := c.correct, incorrect := c.incorrect, unanswered := c.unanswered,
        totalScore := none, maxScore := none }

/-! ## Manual key transcription and `handleCheckAnswers` (lines 151–171) -/

/-- The loop `for (let i = 0; i < manualKey.length; i++) answerKey[i+1] =
manualKey[i]`, with `idx` the current value of `i`. -/
def manualToKeyAux : AnswerKey → List Char → Nat → AnswerKey
  | k, [], _ => k
  | k, c :: t, idx => manualToKeyAux (setKey k ((idx + 1 : Nat) : Int) (String.mk [c])) t (idx + 1)

/-- Transcription of a manual key string: `key[i] = s[i-1]` for `i` in
`1..s.length`, starting from the freshly cleared key `{}`. -/
def manualToKey (s : String) : AnswerKey :=
  manualToKeyAux [] s.data 0

/-- The possible outcomes of pressing "Finish & Check". -/
inductive CheckResult where
  | errKeyLengthMismatch (expected actual : Nat)
  | errUploadedKeyMismatch (expected actual : Nat)
  | confirmPrompt
  | graded (key : AnswerKey) (res : GradeResult)
deriving DecidableEq

/-- `handleCheckAnswers`: trim and upper-case the manual key field; if any
key is available, validate its size and grade, preferring the manual key;
otherwise show the confirmation prompt.  Returns the outcome together with
the answer key after the call (mutated only on the successful manual
path). -/
def handleCheckAnswers (manualRaw : String) (answerKey : AnswerKey)
    (totalQuestions : Nat) (sel : Nat → Option String) (cm wm : Option Rat) :
    CheckResult × AnswerKey :=
  let manualKey := jsToUpper (jsTrim manualRaw)
  if manualKey ≠ "" ∨ answerKey.length > 0 then
    if manualKey ≠ "" then
      if manualKey.length ≠ totalQuestions then
        (.errKeyLengthMismatch totalQuestions manualKey.length, answerKey)
      else
        let newKey := manualToKey manualKey
        (.graded newKey (gradeFull totalQuestions sel newKey cm wm), newKey)
    else if answerKey.length ≠ totalQuestions then
      (.errUploadedKeyMismatch totalQuestions answerKey.length, answerKey)
    else
      (.graded answerKey (gradeFull totalQuestions sel answerKey cm wm), answerKey)
  else (.confirmPrompt, answerKey)

/-! ## Session state and `handleConfirmProceed` (lines 236–248) -/

/-- The session flags relevant to grading state: the `isGraded` flag, whether
the timer interval is running, whether the radio inputs are enabled, and the
displayed result summary (if any). -/
structure SessionState where
  isGraded : Bool
  timerRunning : Bool
  inputsEnabled : Bool
  results : Option GradeResult
deriving DecidableEq

/-- `handleConfirmProceed`: the user confirmed proceeding without an answer
key.  Stops the timer, sets `isGraded = false`, disables every radio input;
no grading is performed so the results are untouched. -/
def handleConfirmProceed (s : SessionState) : SessionState :=
  { s with timerRunning := false, isGraded := false, inputsEnabled := false }

/-! ## Excel parsing (`parseAnswerKeyFromExcel`, lines 479–498) -/

/-- The body of the `data.forEach(row => ...)` loop of
`parseAnswerKeyFromExcel`: parse the first field with `parseInt`, normalize
the second with `String(...).trim().toUpperCase()`, and accept the pair iff
the number parsed and the normalized answer is one of A/B/C/D. -/
def excelStep (acc : AnswerKey × Nat) (row : String × String) : AnswerKey × Nat :=
  match jsParseInt row.1 with
  | some qNum =>
      let answer := jsToUpper (jsTrim row.2)
      if answer ∈ ["A", "B", "C", "D"] then (setKey acc.1 qNum answer, acc.2 + 1)
      else acc
  | none => acc

/-- `parseAnswerKeyFromExcel`: fold over the rows, accepting a row exactly
when its first field parses as an integer and its second field, trimmed and
upper-cased, is one of A/B/C/D; succeed with the accumulated key and count
iff at least one row was accepted.  A row's fields are modelled by their JS
string coercions. -/
def parseAnswerKeyFromExcel (data : List (String × String)) : Option (AnswerKey × Nat) :=
  let acc := data.foldl excelStep ([], 0)
  if acc.2 > 0 then some (acc.1, acc.2) else none

/-- The (question, answer) pair accepted from a row, when the row is
accepted; restates the per-row acceptance test of `parseAnswerKeyFromExcel`
as a `filterMap` step for the specification theorems. -/
def acceptRow (row : String × String) : Option (Int × String) :=
  match jsParseInt row.1 with
  | some qNum =>
      if jsToUpper (jsTrim row.2) ∈ ["A", "B", "C", "D"] then some (qNum, jsToUpper (jsTrim row.2))
      else none
  | none => none

/-! ## Text parsing (`parseAnswerKeyFromText`, lines 504–522)

The regex `/(\d+)\s*[:.-]?\s*([A-D])\b/g` is embedded as a deterministic
greedy matcher: backtracking can never succeed for this pattern, because
after shrinking `\d+` (resp. `\s*`, `[:.-]?`) the next unconsumed character
is a digit (resp. whitespace, separator), which none of the remaining
pattern elements can consume. -/

/-- Separator characters of the class `[:.-]`. -/
def sepChar (c : Char) : Bool :=
  c = ':' || c = '.' || c = '-'

/-- The answer letter class `[A-D]`. -/
def answerLetter (c : Char) : Bool :=
  c = 'A' || c = 'B' || c = 'C' || c = 'D'

/-- Attempt to match `(\d+)\s*[:.-]?\s*([A-D])\b` at the head of `cs`.
On success, return the parsed question number, the letter (as a one-char
string) and the remaining characters after the match. -/
def tryMatch (cs : List Char) : Option (Int × String × List Char) :=
  let ds := cs.takeWhile Char.isDigit
  let r1 := cs.dropWhile Char.isDigit
  if ds.isEmpty then none
  else
    let r2 := r1.dropWhile jsSpace
    let r3 := match r2 with
      | c :: t => if sepChar c then t else r2
      | [] => r2
    let r4 := r3.dropWhile jsSpace
    match r4 with
    | c :: t =>
        if answerLetter c && (match t with | [] => true | d :: _ => !jsWordChar d) then
          some (Int.ofNat (digitsToNat ds), String.mk [c], t)
        else none
    | [] => none

/-- The `regex.exec` loop: find all non-overlapping matches left to right,
resuming after the end of each match; on failure at a position, advance by
one character.  Every step consumes at least one character, so fuel equal
to the length of the text is always sufficient. -/
def scanTextAux : Nat → List Char → List (Int × String)
  | 0, _ => []
  | _, [] => []
  | fuel + 1, c :: rest =>
    match tryMatch (c :: rest) with
    | some (q, a, rem) => (q, a) :: scanTextAux fuel rem
    | none => scanTextAux fuel rest

/-- All matches of the answer-key pattern in `text`, in scan order. -/
def scanText (text : String) : List (Int × String) :=
  scanTextAux text.data.length text.data

/-- `parseAnswerKeyFromText`: collect all regex matches, assigning
`newKey[digits] = letter` for each in order; succeed with the key and the
match count iff at least one match was found. -/
def parseAnswerKeyFromText (text : String) : Option (AnswerKey × Nat) :=
  let ms := scanText text
  if ms.length > 0 then some (buildKey ms, ms.length) else none

/-! ## Upload handlers: effect on the stored key (success vs. failure) -/

/-- The parts of the session mutated by the two file parsers: the stored
answer key and the manual key text field. -/
structure KeyState where
  answerKey : AnswerKey
  manualText : String
deriving DecidableEq

/-- Effect of `parseAnswerKeyFromExcel` on the session: on success the key
is replaced and the manual field cleared; on failure (only an error message
is shown) the state is untouched. -/
def applyExcelUpload (s : KeyState) (data : List (String × String)) : KeyState :=
  match parseAnswerKeyFromExcel data with
  | some (k, _) => { answerKey := k, manualText := "" }
  | none => s

/-- Effect of `parseAnswerKeyFromText` on the session: on success the key
is replaced and the manual field cleared; on failure the state is
untouched. -/
def applyTextUpload (s : KeyState) (text : String) : KeyState :=
  match parseAnswerKeyFromText text with
  | some (k, _) => { answerKey := k, manualText := "" }
  | none => s

/-! ## Association-list lemmas -/

/-- Lookup after assignment: the assigned key reads back the new value and
every other key is unaffected. -/
theorem getKey_setKey (m : AnswerKey) (k : Int) (v : String) (q : Int) :
    getKey (setKey m k v) q = if q = k then some v else getKey m q := by
  induction m with
  | nil =>
      by_cases h : q = k
      · subst h; simp [setKey, getKey]
      · have hk : (k == q) = false := by
          rw [beq_eq_false_iff_ne]
          exact fun hk => h hk.symm
        simp [setKey, getKey, hk, h]
  | cons p t ih =>
      by_cases hpk : p.1 = k
      · by_cases h : q = k
        · subst h
          simp [setKey, if_pos hpk, getKey]
        · have hk : (k == q) = false := by
            rw [beq_eq_false_iff_ne]
            exact fun hk => h hk.symm
          have hp : (p.1 == q) = false := by rw [hpk]; exact hk
          simp [setKey, if_pos hpk, getKey, hk, hp, h]
      · by_cases hpq : p.1 = q
        · have hq : ¬ q = k := fun h => hpk (hpq.trans h)
          have hp : (p.1 == q) = true := by rw [beq_iff_eq]; exact hpq
          simp [setKey, if_neg hpk, getKey, hp, hq]
        · have hp : (p.1 == q) = false := by rw [beq_eq_false_iff_ne]; exact hpq
          simp only [setKey, if_neg hpk, getKey, List.find?, hp] at ih ⊢
          exact ih

/-- Folding assignments over a list: the lookup is the last assignment to
the queried key, falling back to the initial object. -/
theorem getKey_foldl_setKey (ps : List (Int × String)) :
    ∀ (k : AnswerKey) (q : Int),
      getKey (ps.foldl (fun m p => setKey m p.1 p.2) k) q =
        match ps.reverse.find? (fun p => p.1 == q) with
        | some p => some p.2
        | none => getKey k q := by
  induction ps with
  | nil => intro k q; rfl
  | cons p t ih =>
      intro k q
      have step : (p :: t).foldl (fun m r => setKey m r.1 r.2) k =
          t.foldl (fun m r => setKey m r.1 r.2) (setKey k p.1 p.2) := rfl
      rw [step, ih]
      have hrev : (p :: t).reverse = t.reverse ++ [p] := by simp
      rw [hrev, List.find?_append]
      cases hfind : t.reverse.find? (fun r => r.1 == q) with
      | some r => simp [hfind, Option.or]
      | none =>
          simp only [hfind, Option.or, getKey_setKey]
          by_cases h : p.1 = q
          · simp [List.find?, beq_iff_eq, h]
          · have : (p.1 == q) = false := by simp [beq_iff_eq, h]
            simp [List.find?, this]
            intro hq
            exact absurd hq.symm h

/-- `buildKey` lookup: the value of the last assignment for the key, if
any. -/
theorem getKey_buildKey (ps : List (Int × String)) (q : Int) :
    getKey (buildKey ps) q = (ps.reverse.find? (fun p => p.1 == q)).map Prod.snd := by
  rw [buildKey, getKey_foldl_setKey]
  cases h : ps.reverse.find? (fun p => p.1 == q) with
  | some r => simp
  | none => simp [getKey, List.find?]

/-! ## Grading lemmas -/

/-- Number of questions in `qs` that the grading branches put in outcome
`o`. -/
def outcomeCount (sel : Nat → Option String) (key : AnswerKey) (qs : List Nat) (o : Outcome) : Nat :=
  (qs.filter (fun i => questionOutcome sel key i == o)).length

/-- The grading fold counts each question in exactly the counter of its
outcome. -/
theorem foldl_gradeStep (sel : Nat → Option String) (key : AnswerKey) (qs : List Nat) :
    ∀ c : Counts,
      qs.foldl (gradeStep sel key) c =
        ⟨c.correct + outcomeCount sel key qs .correct,
         c.incorrect + outcomeCount sel key qs .incorrect,
         c.unanswered + outcomeCount sel key qs .unanswered⟩ := by
  induction qs with
  | nil => intro c; simp [outcomeCount]
  | cons i t ih =>
      intro c
      rw [List.foldl_cons, ih]
      cases hsel : sel i with
      | none =>
          have hout : questionOutcome sel key i = .unanswered := by
            simp [questionOutcome, hsel]
          have hstep : gradeStep sel key c i = ⟨c.correct, c.incorrect, c.unanswered + 1⟩ := by
            simp [gradeStep, hsel]
          simp only [hstep, outcomeCount, List.filter_cons, hout]
          simp [Counts.mk.injEq]
          omega
      | some v =>
          by_cases hkey : getKey key (i : Int) = some v
          · have hout : questionOutcome sel key i = .correct := by
              simp [questionOutcome, hsel, hkey]
            have hstep : gradeStep sel key c i = ⟨c.correct + 1, c.incorrect, c.unanswered⟩ := by
              simp [gradeStep, hsel, hkey]
            simp only [hstep, outcomeCount, List.filter_cons, hout]
            simp [Counts.mk.injEq]
            omega
          · have hout : questionOutcome sel key i = .incorrect := by
              simp [questionOutcome, hsel, hkey]
            have hstep : gradeStep sel key c i = ⟨c.correct, c.incorrect + 1, c.unanswered⟩ := by
              simp [gradeStep, hsel, hkey]
            simp only [hstep, outcomeCount, List.filter_cons, hout]
            simp [Counts.mk.injEq]
            omega

/-- `gradeCounts` in terms of per-outcome counts over `1..totalQuestions`. -/
theorem gradeCounts_eq_outcomeCount (N : Nat) (sel : Nat → Option String) (key : AnswerKey) :
    gradeCounts N sel key =
      ⟨outcomeCount sel key (List.range' 1 N) .correct,
       outcomeCount sel key (List.range' 1 N) .incorrect,
       outcomeCount sel key (List.range' 1 N) .unanswered⟩ := by
  rw [gradeCounts, foldl_gradeStep]
  simp

/-- Each grading step increments the three counters by exactly one in
total. -/
theorem foldl_gradeStep_total (sel : Nat → Option String) (key : AnswerKey) (qs : List Nat) :
    ∀ c : Counts,
      (qs.foldl (gradeStep sel key) c).correct + (qs.foldl (gradeStep sel key) c).incorrect +
          (qs.foldl (gradeStep sel key) c).unanswered =
        c.correct + c.incorrect + c.unanswered + qs.length := by
  induction qs with
  | nil => intro c; simp
  | cons i t ih =>
      intro c
      have hfold : (i :: t).foldl (gradeStep sel key) c =
          t.foldl (gradeStep sel key) (gradeStep sel key c i) := rfl
      rw [hfold, ih]
      cases hsel : sel i with
      | none =>
          have hstep : gradeStep sel key c i = ⟨c.correct, c.incorrect, c.unanswered + 1⟩ := by
            simp [gradeStep, hsel]
          rw [hstep]
          simp
          omega
      | some v =>
          by_cases hkey : getKey key (i : Int) = some v
          · have hstep : gradeStep sel key c i = ⟨c.correct + 1, c.incorrect, c.unanswered⟩ := by
              simp [gradeStep, hsel, hkey]
            rw [hstep]
            simp
            omega
          · have hstep : gradeStep sel key c i = ⟨c.correct, c.incorrect + 1, c.unanswered⟩ := by
              simp [gradeStep, hsel, hkey]
            rw [hstep]
            simp
            omega

/-- The grading fold only consults the key at the indices it visits. -/
theorem foldl_gradeStep_congr (sel : Nat → Option String) (key key' : AnswerKey)
    (qs : List Nat) :
    ∀ c : Counts, (∀ i ∈ qs, getKey key (i : Int) = getKey key' (i : Int)) →
      qs.foldl (gradeStep sel key) c = qs.foldl (gradeStep sel key') c := by
  induction qs with
  | nil => intro c _; rfl
  | cons i t ih =>
      intro c h
      have hi : getKey key (i : Int) = getKey key' (i : Int) :=
        h i (List.mem_cons_self i t)
      have hstep : gradeStep sel key c i = gradeStep sel key' c i := by
        cases hsel : sel i with
        | none => simp [gradeStep, hsel]
        | some v => simp [gradeStep, hsel, hi]
      have ht : ∀ j ∈ t, getKey key (j : Int) = getKey key' (j : Int) :=
        fun j hj => h j (List.mem_cons_of_mem i hj)
      calc (i :: t).foldl (gradeStep sel key) c
          = t.foldl (gradeStep sel key) (gradeStep sel key c i) := rfl
        _ = t.foldl (gradeStep sel key') (gradeStep sel key c i) := ih _ ht
        _ = t.foldl (gradeStep sel key') (gradeStep sel key' c i) := by rw [hstep]
        _ = (i :: t).foldl (gradeStep sel key') c := rfl

/-! ## Manual key transcription lemma -/

/-- Lookup in the manual transcription loop: position `q` reads the
character assigned at step `q - idx - 1`, when `q` is in the assigned
range. -/
theorem getKey_manualToKeyAux (cs : List Char) :
    ∀ (k : AnswerKey) (idx q : Nat),
      getKey (manualToKeyAux k cs idx) (q : Int) =
        if idx + 1 ≤ q ∧ q ≤ idx + cs.length then
          (cs[q - idx - 1]?).map (fun c => String.mk [c])
        else getKey k (q : Int) := by
  induction cs with
  | nil =>
      intro k idx q
      have h : ¬ (idx + 1 ≤ q ∧ q ≤ idx + List.length ([] : List Char)) := by
        simp only [List.length_nil]
        omega
      rw [manualToKeyAux, if_neg h]
  | cons c t ih =>
      intro k idx q
      rw [manualToKeyAux, ih]
      rcases Nat.lt_trichotomy q (idx + 1) with hq | hq | hq
      · have h1 : ¬ (idx + 1 + 1 ≤ q ∧ q ≤ idx + 1 + t.length) := by omega
        have h2 : ¬ (idx + 1 ≤ q ∧ q ≤ idx + (c :: t).length) := by
          simp only [List.length_cons]
          omega
        rw [if_neg h1, if_neg h2, getKey_setKey]
        have hne : ¬ ((q : Int) = ((idx + 1 : Nat) : Int)) := by
          rw [Nat.cast_inj]
          omega
        rw [if_neg hne]
      · have h1 : ¬ (idx + 1 + 1 ≤ q ∧ q ≤ idx + 1 + t.length) := by omega
        have h2 : idx + 1 ≤ q ∧ q ≤ idx + (c :: t).length := by
          simp only [List.length_cons]
          omega
        rw [if_neg h1, if_pos h2, getKey_setKey]
        have heq : (q : Int) = ((idx + 1 : Nat) : Int) := by
          rw [Nat.cast_inj]
          omega
        rw [if_pos heq]
        have hzero : q - idx - 1 = 0 := by omega
        rw [hzero]
        simp
      · by_cases hle : q ≤ idx + 1 + t.length
        · have h1 : idx + 1 + 1 ≤ q ∧ q ≤ idx + 1 + t.length := by omega
          have h2 : idx + 1 ≤ q ∧ q ≤ idx + (c :: t).length := by
            simp only [List.length_cons]
            omega
          rw [if_pos h1, if_pos h2]
          have hidx : q - idx - 1 = (q - idx - 2) + 1 := by omega
          rw [hidx]
          have hidx' : q - (idx + 1) - 1 = q - idx - 2 := by omega
          rw [hidx']
          simp
        · have h1 : ¬ (idx + 1 + 1 ≤ q ∧ q ≤ idx + 1 + t.length) := by omega
          have h2 : ¬ (idx + 1 ≤ q ∧ q ≤ idx + (c :: t).length) := by
            simp only [List.length_cons]
            omega
          rw [if_neg h1, if_neg h2, getKey_setKey]
          have hne : ¬ ((q : Int) = ((idx + 1 : Nat) : Int)) := by
            rw [Nat.cast_inj]
            omega
          rw [if_neg hne]

/-- Lookup in a transcribed manual key, for an index in range. -/
theorem getKey_manualToKey (s : String) (i : Nat) (h1 : 1 ≤ i) (h2 : i ≤ s.length) :
    getKey (manualToKey s) (i : Int) =
      (s.data[i - 1]?).map (fun c => String.mk [c]) := by
  rw [manualToKey, getKey_manualToKeyAux]
  have hlen : s.data.length = s.length := rfl
  have h : 0 + 1 ≤ i ∧ i ≤ 0 + s.data.length := by omega
  rw [if_pos h]
  have hi : i - 0 - 1 = i - 1 := by omega
  rw [hi]

/-! ## Excel fold characterization -/

/-- The Excel fold is the fold of the accepted pairs: the key accumulates
exactly the accepted assignments and the counter the number of accepted
rows. -/
theorem excel_foldl (data : List (String × String)) :
    ∀ (k : AnswerKey) (n : Nat),
      data.foldl excelStep (k, n) =
        ((data.filterMap acceptRow).foldl (fun m p => setKey m p.1 p.2) k,
         n + (data.filterMap acceptRow).length) := by
  induction data with
  | nil => intro k n; simp
  | cons row t ih =>
      intro k n
      rw [List.foldl_cons, List.filterMap_cons]
      cases hq : jsParseInt row.1 with
      | none =>
          have hstep : excelStep (k, n) row = (k, n) := by simp [excelStep, hq]
          have hacc : acceptRow row = none := by simp [acceptRow, hq]
          rw [hstep, hacc, ih]
      | some qNum =>
          by_cases hans : jsToUpper (jsTrim row.2) ∈ ["A", "B", "C", "D"]
          · have hstep : excelStep (k, n) row =
                (setKey k qNum (jsToUpper (jsTrim row.2)), n + 1) := by
              simp [excelStep, hq, hans]
            have hacc : acceptRow row = some (qNum, jsToUpper (jsTrim row.2)) := by
              simp [acceptRow, hq, hans]
            rw [hstep, hacc, ih, List.foldl_cons, List.length_cons]
            refine Prod.ext rfl ?_
            simp
            omega
          · have hstep : excelStep (k, n) row = (k, n) := by simp [excelStep, hq, hans]
            have hacc : acceptRow row = none := by simp [acceptRow, hq, hans]
            rw [hstep, hacc, ih]

/-! ## `handleCheckAnswers` path lemmas -/

/-- When the trimmed, upper-cased manual key field is non-empty,
`handleCheckAnswers` takes the manual branch: length check, then transcribe
and grade. -/
theorem handleCheckAnswers_manual (manualRaw : String) (key : AnswerKey) (N : Nat)
    (sel : Nat → Option String) (cm wm : Option Rat) (h : jsToUpper (jsTrim manualRaw) ≠ "") :
    handleCheckAnswers manualRaw key N sel cm wm =
      if (jsToUpper (jsTrim manualRaw)).length ≠ N then
        (.errKeyLengthMismatch N (jsToUpper (jsTrim manualRaw)).length, key)
      else
        (.graded (manualToKey (jsToUpper (jsTrim manualRaw)))
           (gradeFull N sel (manualToKey (jsToUpper (jsTrim manualRaw))) cm wm),
         manualToKey (jsToUpper (jsTrim manualRaw))) := by
  simp only [handleCheckAnswers]
  rw [if_pos (Or.inl h), if_pos h]

/-- When the manual key field is empty and an uploaded key is present,
`handleCheckAnswers` takes the uploaded branch: size check, then grade with
the stored key unchanged. -/
theorem handleCheckAnswers_uploaded (manualRaw : String) (key : AnswerKey) (N : Nat)
    (sel : Nat → Option String) (cm wm : Option Rat)
    (h : jsToUpper (jsTrim manualRaw) = "") (hk : key.length > 0) :
    handleCheckAnswers manualRaw key N sel cm wm =
      if key.length ≠ N then (.errUploadedKeyMismatch N key.length, key)
      else (.graded key (gradeFull N sel key cm wm), key) := by
  simp only [handleCheckAnswers]
  have h' : ¬ (jsToUpper (jsTrim manualRaw) ≠ "") := by simp [h]
  rw [if_pos (Or.inr hk), if_neg h']

/-! ## Concrete fixtures (the spec's worked example) -/

/-- The answer key {1:A, 2:B, 3:C, 4:D} of the spec's worked example. -/
def exampleKey : AnswerKey := [(1, "A"), (2, "B"), (3, "C"), (4, "D")]

/-- The selections {1:A, 2:A, 3:none, 4:D} of the spec's worked example. -/
def exampleSel : Nat → Option String := fun i =>
  if i = 1 then some "A" else if i = 2 then some "A" else if i = 4 then some "D" else none

/-! ## Claims -/

/-- C1: grading classifies every question index in `1..totalQuestions` into
exactly one of the three outcomes — the counters are exactly the sizes of
the outcome classes; an unselected question is unanswered; a selected
question is correct iff the key holds exactly the selected value at that
index (so a missing key entry never matches and yields incorrect); and the
counts depend on the key only through its entries at indices `1..N`, so
entries outside that range are never consulted and never cause an error
(the embedding is a total function). -/
theorem C1_grading_classification (N : Nat) (sel : Nat → Option String) (key : AnswerKey) :
    (gradeCounts N sel key =
        ⟨outcomeCount sel key (List.range' 1 N) .correct,
         outcomeCount sel key (List.range' 1 N) .incorrect,
         outcomeCount sel key (List.range' 1 N) .unanswered⟩)
    ∧ (∀ i, sel i = none → questionOutcome sel key i = .unanswered)
    ∧ (∀ i v, sel i = some v →
        (questionOutcome sel key i = .correct ↔ getKey key (i : Int) = some v))
    ∧ (∀ i v, sel i = some v → getKey key (i : Int) = none →
        questionOutcome sel key i = .incorrect)
    ∧ (∀ key' : AnswerKey,
        (∀ i : Nat, 1 ≤ i → i ≤ N → getKey key (i : Int) = getKey key' (i : Int)) →
        gradeCounts N sel key = gradeCounts N sel key') := by
  refine ⟨gradeCounts_eq_outcomeCount N sel key, ?_, ?_, ?_, ?_⟩
  · intro i h
    simp [questionOutcome, h]
  · intro i v h
    simp only [questionOutcome, h]
    by_cases hk : getKey key (i : Int) = some v
    · simp [hk]
    · simp [hk]
  · intro i v h hk
    simp [questionOutcome, h, hk]
  · intro key' hagree
    rw [gradeCounts, gradeCounts]
    apply foldl_gradeStep_congr
    intro i hi
    rw [List.mem_range'_1] at hi
    exact hagree i hi.1 (by omega)

/-- C1 witness: the classification at a concrete instance — question 3 of
the worked example is unanswered, question 1 is correct iff the key says A,
a selection against an empty key is incorrect, and an extra key entry at 99
does not change the counts for a 2-question sheet. -/
theorem C1_grading_classification_witness :
    questionOutcome exampleSel exampleKey 3 = .unanswered
    ∧ (questionOutcome exampleSel exampleKey 1 = .correct ↔
        getKey exampleKey ((1 : Nat) : Int) = some "A")
    ∧ questionOutcome (fun _ => some "A") [] 1 = .incorrect
    ∧ gradeCounts 2 exampleSel exampleKey =
        gradeCounts 2 exampleSel (exampleKey ++ [(99, "Z")]) :=
  ⟨(C1_grading_classification 4 exampleSel exampleKey).2.1 3 (by decide),
   (C1_grading_classification 4 exampleSel exampleKey).2.2.1 1 "A" (by decide),
   (C1_grading_classification 1 (fun _ => some "A") []).2.2.2.1 1 "A" rfl (by decide),
   (C1_grading_classification 2 exampleSel exampleKey).2.2.2.2 (exampleKey ++ [(99, "Z")])
     (by intro i h1 h2; interval_cases i <;> decide)⟩

/-- C2: when `correctMarks` is set, the grading result carries
`rawScore = correct * correctMarks + incorrect * (wrongMarks or 0)` and
`maxScore = totalQuestions * correctMarks`; a positive user-entered
wrong-marks value is negated at configuration time; and the spec's worked
example (N=4, correctMarks=4, wrongMarks entered as 1, key {1:A,2:B,3:C,4:D},
selections {1:A,2:A,3:none,4:D}) yields correct=2, incorrect=1,
unanswered=1, rawScore=7, maxScore=16. -/
theorem C2_weighted_scoring (N : Nat) (sel : Nat → Option String) (key : AnswerKey)
    (m : Rat) (wm : Option Rat) :
    (∀ w : Rat, 0 < w → normalizeWrongMarks (some w) = some (-w))
    ∧ (gradeFull N sel key (some m) wm).totalScore =
        some ((gradeCounts N sel key).correct * m +
          (gradeCounts N sel key).incorrect * (wm.getD 0))
    ∧ (gradeFull N sel key (some m) wm).maxScore = some (N * m)
    ∧ gradeFull 4 exampleSel exampleKey (some 4) (normalizeWrongMarks (some 1)) =
        ⟨2, 1, 1, some 7, some 16⟩ := by
  refine ⟨?_, rfl, rfl, ?_⟩
  · intro w hw
    simp [normalizeWrongMarks, hw]
  · have hc : gradeCounts 4 exampleSel exampleKey = ⟨2, 1, 1⟩ := by decide
    have hw : normalizeWrongMarks (some 1) = some (-1) := by
      norm_num [normalizeWrongMarks]
    simp only [gradeFull, hc, hw]
    norm_num [GradeResult.mk.injEq]

/-- C2 witness: the normalization hypothesis discharged at the concrete
entered value 1. -/
theorem C2_weighted_scoring_witness :
    normalizeWrongMarks (some 1) = some (-1) :=
  (C2_weighted_scoring 4 exampleSel exampleKey 4 (normalizeWrongMarks (some 1))).1 1
    (by norm_num)

/-- C9: after any grading pass the three outcome counts partition the
sheet: `correct + incorrect + unanswered = totalQuestions`, both for the
raw counters and for the displayed result. -/
theorem C9_counts_partition (N : Nat) (sel : Nat → Option String) (key : AnswerKey)
    (cm wm : Option Rat) :
    (gradeCounts N sel key).correct + (gradeCounts N sel key).incorrect +
        (gradeCounts N sel key).unanswered = N
    ∧ (gradeFull N sel key cm wm).correct + (gradeFull N sel key cm wm).incorrect +
        (gradeFull N sel key cm wm).unanswered = N := by
  have h := foldl_gradeStep_total sel key (List.range' 1 N) ⟨0, 0, 0⟩
  simp only [List.length_range'] at h
  have h0 : (gradeCounts N sel key).correct + (gradeCounts N sel key).incorrect +
      (gradeCounts N sel key).unanswered = N := by
    rw [gradeCounts]
    omega
  refine ⟨h0, ?_⟩
  cases cm <;> simp [gradeFull] <;> omega

/-- C3: unstructured-text parsing collects every match of the
digits-separator-letter pattern in left-to-right scan order and assigns
`key[digits] = letter` for each, so the final key maps each question number
to its last match; it fails exactly when there is no match; and on the two
documented inputs it produces `{1:A, 2:B, 3:C, 4:D}` (count 4) and `{5:B}`
(count 2, last match winning). -/
theorem C3_text_parsing (text : String) :
    (parseAnswerKeyFromText text = none ↔ scanText text = [])
    ∧ (∀ key n, parseAnswerKeyFromText text = some (key, n) →
        n = (scanText text).length
        ∧ ∀ q : Int, getKey key q =
            ((scanText text).reverse.find? (fun p => p.1 == q)).map Prod.snd)
    ∧ parseAnswerKeyFromText "1. A 2-B 3:C 4 D" =
        some ([(1, "A"), (2, "B"), (3, "C"), (4, "D")], 4)
    ∧ parseAnswerKeyFromText "5-A 5-B" = some ([(5, "B")], 2) := by
  refine ⟨?_, ?_, by decide, by decide⟩
  · simp only [parseAnswerKeyFromText]
    by_cases hlen : (scanText text).length > 0
    · rw [if_pos hlen]
      simp only [reduceCtorEq, false_iff]
      intro he
      rw [he] at hlen
      simp at hlen
    · rw [if_neg hlen]
      simp only [true_iff]
      exact List.length_eq_zero.mp (by omega)
  · intro key n h
    simp only [parseAnswerKeyFromText] at h
    by_cases hlen : (scanText text).length > 0
    · rw [if_pos hlen] at h
      have h2 := Option.some.inj h
      injection h2 with ha hb
      subst ha
      subst hb
      exact ⟨rfl, fun q => getKey_buildKey (scanText text) q⟩
    · rw [if_neg hlen] at h
      exact absurd h (by simp)

/-- C3 witness: the success characterization applied to the duplicate-match
input `"5-A 5-B"`: the reported count is the number of matches and the key
at 5 is the last match B. -/
theorem C3_text_parsing_witness :
    2 = (scanText "5-A 5-B").length
    ∧ getKey [(5, "B")] 5 =
        ((scanText "5-A 5-B").reverse.find? (fun p => p.1 == 5)).map Prod.snd :=
  ⟨((C3_text_parsing "5-A 5-B").2.1 [(5, "B")] 2 (by decide)).1,
   ((C3_text_parsing "5-A 5-B").2.1 [(5, "B")] 2 (by decide)).2 5⟩

/-- C4 counterexample: the empty manual key string (the state of an
untouched input field) has length 0 ≠ 1 = totalQuestions, yet
`handleCheckAnswers` does not fail with a key-length mismatch — it falls
through to the uploaded key and grades, so the claim is false as stated for
the empty string. -/
theorem C4_counterexample :
    (jsToUpper (jsTrim "")).length ≠ 1
    ∧ handleCheckAnswers "" [(1, "A")] 1 (fun _ => some "A") none none =
        (.graded [(1, "A")] ⟨1, 0, 0, none, none⟩, [(1, "A")]) :=
  ⟨by decide, by decide⟩

/-- C4 (amended to non-empty manual strings): for every manual key string
that is non-empty after trimming, if its length differs from
`totalQuestions` the check fails with the key-length-mismatch error and the
stored key is not mutated; if its length equals `totalQuestions` it
succeeds, grading with the transcribed key, and the new key maps each `i`
in `1..totalQuestions` to the `i-1`-th character of the normalized
string. -/
theorem C4_manual_key_parsing (manualRaw : String) (key : AnswerKey) (N : Nat)
    (sel : Nat → Option String) (cm wm : Option Rat)
    (hne : jsToUpper (jsTrim manualRaw) ≠ "") :
    ((jsToUpper (jsTrim manualRaw)).length ≠ N →
       handleCheckAnswers manualRaw key N sel cm wm =
         (.errKeyLengthMismatch N (jsToUpper (jsTrim manualRaw)).length, key))
    ∧ ((jsToUpper (jsTrim manualRaw)).length = N →
       handleCheckAnswers manualRaw key N sel cm wm =
         (.graded (manualToKey (jsToUpper (jsTrim manualRaw)))
            (gradeFull N sel (manualToKey (jsToUpper (jsTrim manualRaw))) cm wm),
          manualToKey (jsToUpper (jsTrim manualRaw)))
       ∧ (∀ i : Nat, 1 ≤ i → i ≤ N →
            getKey (manualToKey (jsToUpper (jsTrim manualRaw))) (i : Int) =
              ((jsToUpper (jsTrim manualRaw)).data[i - 1]?).map (fun c => String.mk [c]))) := by
  rw [handleCheckAnswers_manual manualRaw key N sel cm wm hne]
  constructor
  · intro h
    rw [if_pos h]
  · intro h
    have h' : ¬ ((jsToUpper (jsTrim manualRaw)).length ≠ N) := by simp [h]
    rw [if_neg h']
    refine ⟨rfl, ?_⟩
    intro i h1 h2
    exact getKey_manualToKey (jsToUpper (jsTrim manualRaw)) i h1 (by omega)

/-- C4 witness: at the concrete input `" ab "` (normalized to `"AB"`), a
3-question sheet rejects it with the mismatch error leaving the key alone,
and a 2-question sheet accepts it and transcribes position 1. -/
theorem C4_manual_key_parsing_witness :
    (jsToUpper (jsTrim " ab ")).length ≠ 3
    ∧ handleCheckAnswers " ab " [(9, "Z")] 3 (fun _ => none) none none =
        (.errKeyLengthMismatch 3 (jsToUpper (jsTrim " ab ")).length, [(9, "Z")])
    ∧ getKey (manualToKey (jsToUpper (jsTrim " ab "))) ((1 : Nat) : Int) =
        ((jsToUpper (jsTrim " ab ")).data[1 - 1]?).map (fun c => String.mk [c]) :=
  ⟨by decide,
   (C4_manual_key_parsing " ab " [(9, "Z")] 3 (fun _ => none) none none (by decide)).1
     (by decide),
   ((C4_manual_key_parsing " ab " [(9, "Z")] 2 (fun _ => none) none none (by decide)).2
     (by decide)).2 1 (by decide) (by decide)⟩

/-- C5: tabular parsing accepts a row's (first, second) pair iff the first
field parses as an integer and the second, trimmed and upper-cased, is one
of A/B/C/D; all other rows are skipped; the parse fails iff zero pairs were
accepted, and otherwise succeeds with exactly the mapping built from the
accepted pairs in order and the accepted count. -/
theorem C5_excel_parsing (data : List (String × String)) :
    (∀ row : String × String,
        (acceptRow row).isSome ↔
          ((jsParseInt row.1).isSome ∧
            jsToUpper (jsTrim row.2) ∈ (["A", "B", "C", "D"] : List String)))
    ∧ parseAnswerKeyFromExcel data =
        (if data.filterMap acceptRow = [] then none
         else some (buildKey (data.filterMap acceptRow),
                    (data.filterMap acceptRow).length)) := by
  constructor
  · intro row
    cases hq : jsParseInt row.1 with
    | none => simp [acceptRow, hq]
    | some q =>
        by_cases hans : jsToUpper (jsTrim row.2) ∈ (["A", "B", "C", "D"] : List String) <;>
          simp [acceptRow, hq, hans]
  · simp only [parseAnswerKeyFromExcel]
    rw [excel_foldl data [] 0]
    by_cases hemp : data.filterMap acceptRow = []
    · rw [if_pos hemp, hemp]
      simp
    · rw [if_neg hemp]
      have hpos : 0 + (data.filterMap acceptRow).length > 0 := by
        have := List.length_pos.mpr hemp
        omega
      rw [if_pos hpos]
      have hz : 0 + (data.filterMap acceptRow).length =
          (data.filterMap acceptRow).length := by omega
      rw [hz]
      rfl

/-- C6 counterexample: on the proceed-without-key path the `isGraded` flag
does not transition to `true`: starting from an in-progress session
(`isGraded = false`), `handleConfirmProceed` leaves it `false` (the source
explicitly sets `isGraded = false`). -/
theorem C6_counterexample :
    (SessionState.mk false true true none).isGraded = false
    ∧ (handleConfirmProceed (SessionState.mk false true true none)).isGraded ≠ true := by
  decide

/-- C6 (amended): on the explicit proceed-without-key path the session's
`isGraded` flag stays/ends `false` (not `true`), scoring is skipped (the
stored results are untouched), the timer is stopped and further answer
input is frozen. -/
theorem C6_proceed_without_key (s : SessionState) :
    (handleConfirmProceed s).isGraded = false
    ∧ (handleConfirmProceed s).timerRunning = false
    ∧ (handleConfirmProceed s).inputsEnabled = false
    ∧ (handleConfirmProceed s).results = s.results :=
  ⟨rfl, rfl, rfl, rfl⟩

/-- C7: every failing parse leaves the previously accepted key exactly as
it was: a failing Excel parse and a failing text parse leave the whole key
state untouched, and a manual length mismatch leaves the stored key
unchanged. -/
theorem C7_failed_parse_preserves_key :
    (∀ (s : KeyState) (data : List (String × String)),
        parseAnswerKeyFromExcel data = none → applyExcelUpload s data = s)
    ∧ (∀ (s : KeyState) (text : String),
        parseAnswerKeyFromText text = none → applyTextUpload s text = s)
    ∧ (∀ (manualRaw : String) (key : AnswerKey) (N : Nat) (sel : Nat → Option String)
        (cm wm : Option Rat), jsToUpper (jsTrim manualRaw) ≠ "" →
          (jsToUpper (jsTrim manualRaw)).length ≠ N →
          (handleCheckAnswers manualRaw key N sel cm wm).2 = key) := by
  refine ⟨?_, ?_, ?_⟩
  · intro s data h
    simp [applyExcelUpload, h]
  · intro s text h
    simp [applyTextUpload, h]
  · intro manualRaw key N sel cm wm hne hlen
    rw [handleCheckAnswers_manual manualRaw key N sel cm wm hne, if_pos hlen]

/-- C7 witness: the three failure paths at concrete failing inputs — an
Excel sheet with no valid row, a text with no pattern match, and a manual
string of the wrong length — each leave the stored key `[(1, "A")]`
untouched. -/
theorem C7_failed_parse_preserves_key_witness :
    applyExcelUpload (KeyState.mk [(1, "A")] "x") [("x", "Z")] = KeyState.mk [(1, "A")] "x"
    ∧ applyTextUpload (KeyState.mk [(1, "A")] "x") "hello world" = KeyState.mk [(1, "A")] "x"
    ∧ (handleCheckAnswers "ZZ" [(1, "A")] 3 (fun _ => none) none none).2 = [(1, "A")] :=
  ⟨C7_failed_parse_preserves_key.1 (KeyState.mk [(1, "A")] "x") [("x", "Z")] (by decide),
   C7_failed_parse_preserves_key.2.1 (KeyState.mk [(1, "A")] "x") "hello world" (by decide),
   C7_failed_parse_preserves_key.2.2 "ZZ" [(1, "A")] 3 (fun _ => none) none none
     (by decide) (by decide)⟩

/-- C8: with an empty manual field and a non-empty uploaded key, grading is
rejected with the descriptive size-mismatch error (and no grading occurs)
whenever the key's size differs from `totalQuestions`; a graded result is
produced only when the size matches, and then the stored key is used
unchanged. -/
theorem C8_uploaded_key_size_check (manualRaw : String) (key : AnswerKey) (N : Nat)
    (sel : Nat → Option String) (cm wm : Option Rat)
    (hm : jsToUpper (jsTrim manualRaw) = "") (hk : key.length > 0) :
    (key.length ≠ N →
       handleCheckAnswers manualRaw key N sel cm wm =
         (.errUploadedKeyMismatch N key.length, key))
    ∧ (∀ k r, (handleCheckAnswers manualRaw key N sel cm wm).1 = .graded k r →
        key.length = N)
    ∧ (key.length = N →
       handleCheckAnswers manualRaw key N sel cm wm =
         (.graded key (gradeFull N sel key cm wm), key)) := by
  rw [handleCheckAnswers_uploaded manualRaw key N sel cm wm hm hk]
  refine ⟨fun h => by rw [if_pos h], ?_, fun h => by rw [if_neg (by simp [h])]⟩
  intro k r hgr
  by_contra hne
  rw [if_pos hne] at hgr
  simp at hgr

/-- C8 witness: the uploaded two-entry key is rejected against a
3-question sheet and accepted (grading) against a 2-question sheet. -/
theorem C8_uploaded_key_size_check_witness :
    handleCheckAnswers "" [(1, "A"), (2, "B")] 3 (fun _ => none) none none =
        (.errUploadedKeyMismatch 3 ([(1, "A"), (2, "B")] : AnswerKey).length,
         [(1, "A"), (2, "B")])
    ∧ handleCheckAnswers "" [(1, "A"), (2, "B")] 2 (fun _ => none) none none =
        (.graded [(1, "A"), (2, "B")]
           (gradeFull 2 (fun _ => none) [(1, "A"), (2, "B")] none none),
         [(1, "A"), (2, "B")]) :=
  ⟨(C8_uploaded_key_size_check "" [(1, "A"), (2, "B")] 3 (fun _ => none) none none
      (by decide) (by decide)).1 (by decide),
   (C8_uploaded_key_size_check "" [(1, "A"), (2, "B")] 2 (fun _ => none) none none
      (by decide) (by decide)).2.2 (by decide)⟩

/-- C10: when the trimmed manual key string is non-empty and has the right
length, the manual string wins: the result is entirely determined by the
manual key — the previously uploaded key (of any size, never size-checked)
is discarded and replaced by the transcribed manual key, which is used for
grading. -/
theorem C10_manual_precedence (manualRaw : String) (key : AnswerKey) (N : Nat)
    (sel : Nat → Option String) (cm wm : Option Rat)
    (hne : jsToUpper (jsTrim manualRaw) ≠ "") (hlen : (jsToUpper (jsTrim manualRaw)).length = N) :
    handleCheckAnswers manualRaw key N sel cm wm =
      (.graded (manualToKey (jsToUpper (jsTrim manualRaw)))
         (gradeFull N sel (manualToKey (jsToUpper (jsTrim manualRaw))) cm wm),
       manualToKey (jsToUpper (jsTrim manualRaw))) := by
  rw [handleCheckAnswers_manual manualRaw key N sel cm wm hne,
    if_neg (by simp [hlen])]

/-- C10 witness: the manual string `"ab"` against a stored uploaded key of
the wrong size (1 entry, sheet of 2 questions) still grades with the
transcribed manual key, ignoring the uploaded key and its size. -/
theorem C10_manual_precedence_witness :
    handleCheckAnswers "ab" [(7, "C")] 2 (fun _ => none) none none =
      (.graded (manualToKey (jsToUpper (jsTrim "ab")))
         (gradeFull 2 (fun _ => none) (manualToKey (jsToUpper (jsTrim "ab"))) none none),
       manualToKey (jsToUpper (jsTrim "ab"))) :=
  C10_manual_precedence "ab" [(7, "C")] 2 (fun _ => none) none none (by decide) (by decide)

end OMR
